import Mathlib

/-!
Shallow embedding of the numeric/decision core of `src/tree/param.h`
(xgboost tree training): the regularized weight/gain calculator, the
monotonic value constraint, and the best-split record with its
deterministic merge.  C++ `double`/`float` arithmetic is modelled over
`ℚ` (exact arithmetic; the source expressions contain no rounding-
specific behaviour relevant to the verified properties), and the
32-bit `unsigned` split-index field is modelled as `ℕ` with the same
bitwise packing as the source (no overflow occurs in the modelled
operations since packed values stay below 2^32).
-/

namespace XgbParam

/-- Training parameters (`struct TrainParam`).  Only the fields read by
the functions modelled below are included: `min_child_weight`,
`reg_lambda`, `reg_alpha`, `max_delta_step` and `monotone_constraints`. -/
structure TrainParam where
  min_child_weight : ℚ
  reg_lambda : ℚ
  reg_alpha : ℚ
  max_delta_step : ℚ
  monotone_constraints : List Int
deriving DecidableEq

/-- Translation of `ThresholdL1(w, alpha)`:
`if (w > +alpha) return w - alpha; if (w < -alpha) return w + alpha; return 0.0;`. -/
def ThresholdL1 (w alpha : ℚ) : ℚ :=
  if w > alpha then w - alpha
  else if w < -alpha then w + alpha
  else 0

/-- Translation of `Sqr(a) = a * a`. -/
def Sqr (a : ℚ) : ℚ := a * a

/-- Translation of `CalcGainGivenWeight(p, sum_grad, sum_hess, w)
= -(2.0 * sum_grad * w + (sum_hess + p.reg_lambda) * Sqr(w))`. -/
def CalcGainGivenWeight (p : TrainParam) (sum_grad sum_hess w : ℚ) : ℚ :=
  -(2 * sum_grad * w + (sum_hess + p.reg_lambda) * Sqr w)

/-- Translation of `CalcWeight(p, sum_grad, sum_hess)`: the gate
`sum_hess < min_child_weight || sum_hess <= 0` returns 0, then the
(possibly L1-thresholded) Newton step is computed and, when
`max_delta_step != 0`, sequentially clamped from above by
`max_delta_step` and from below by `-max_delta_step`. -/
def CalcWeight (p : TrainParam) (sum_grad sum_hess : ℚ) : ℚ :=
  if sum_hess < p.min_child_weight ∨ sum_hess ≤ 0 then 0
  else
    let dw : ℚ :=
      if p.reg_alpha = 0 then -sum_grad / (sum_hess + p.reg_lambda)
      else -(ThresholdL1 sum_grad p.reg_alpha) / (sum_hess + p.reg_lambda)
    if p.max_delta_step ≠ 0 then
      let dw1 : ℚ := if dw > p.max_delta_step then p.max_delta_step else dw
      if dw1 < -p.max_delta_step then -p.max_delta_step else dw1
    else dw

/-- Translation of `CalcGain(p, sum_grad, sum_hess)`: gate on
`sum_hess < min_child_weight`; closed form when `max_delta_step == 0`
(with a fast path for `reg_alpha == 0`); otherwise the gain at the
clipped weight, adding back `reg_alpha * |w|` when `reg_alpha != 0`. -/
def CalcGain (p : TrainParam) (sum_grad sum_hess : ℚ) : ℚ :=
  if sum_hess < p.min_child_weight then 0
  else if p.max_delta_step = 0 then
    if p.reg_alpha = 0 then Sqr sum_grad / (sum_hess + p.reg_lambda)
    else Sqr (ThresholdL1 sum_grad p.reg_alpha) / (sum_hess + p.reg_lambda)
  else
    let w : ℚ := CalcWeight p sum_grad sum_hess
    let ret : ℚ := CalcGainGivenWeight p sum_grad sum_hess w
    if p.reg_alpha = 0 then ret else ret + p.reg_alpha * |w|

/-- Branch condition under which `CalcWeight` proceeds past its early
`return 0.0` (negation of `sum_hess < p.min_child_weight || sum_hess <= 0.0`). -/
def CalcWeightGate (p : TrainParam) (sum_hess : ℚ) : Prop :=
  ¬ (sum_hess < p.min_child_weight ∨ sum_hess ≤ 0)

/-- Branch condition under which `CalcGain` proceeds past its early
`return T(0.0)` (negation of `sum_hess < p.min_child_weight`). -/
def CalcGainGate (p : TrainParam) (sum_hess : ℚ) : Prop :=
  ¬ (sum_hess < p.min_child_weight)

instance (p : TrainParam) (h : ℚ) : Decidable (CalcWeightGate p h) := by
  unfold CalcWeightGate; infer_instance

instance (p : TrainParam) (h : ℚ) : Decidable (CalcGainGate p h) := by
  unfold CalcGainGate; infer_instance

/-- Translation of `struct GradStats`: summed gradient and hessian. -/
structure GradStats where
  sum_grad : ℚ := 0
  sum_hess : ℚ := 0
deriving DecidableEq

/-- Value of a C++ `double` expression, distinguishing the two
infinities from finite values (used to state claims about
`std::numeric_limits<double>` constants; NaN does not arise in the
modelled expressions). -/
inductive DblVal where
  | negInf : DblVal
  | posInf : DblVal
  | fin : ℚ → DblVal
deriving DecidableEq

/-- Largest finite double, `std::numeric_limits<double>::max()`
= (2 - 2^-52) * 2^1023 = (2^53 - 1) * 2^971, exactly representable in ℚ. -/
def dblMax : ℚ := (2 ^ 53 - 1) * 2 ^ 971

/-- Translation of `struct ValueConstraint`: lower and upper bound on
the permitted leaf weight.  The bounds stored by the source are always
finite doubles (the constructor stores the finite values
`-std::numeric_limits<double>::max()` and `+std::numeric_limits<double>::max()`,
and `SetChild` stores finite midpoints), so they are modelled in ℚ. -/
structure ValueConstraint where
  lower_bound : ℚ
  upper_bound : ℚ
deriving DecidableEq

/-- Translation of the default constructor `ValueConstraint()`, which
initializes `lower_bound(-std::numeric_limits<double>::max())` and
`upper_bound(std::numeric_limits<double>::max())`. -/
def ValueConstraintInit : ValueConstraint := ⟨-dblMax, dblMax⟩

/-- Double-valued rendering of the expression
`-std::numeric_limits<double>::max()` used by the default constructor
for `lower_bound`: the negated largest finite double, a finite value. -/
def initLowerBound : DblVal := DblVal.fin (-dblMax)

/-- Double-valued rendering of the expression
`std::numeric_limits<double>::max()` used by the default constructor
for `upper_bound`: the largest finite double, a finite value. -/
def initUpperBound : DblVal := DblVal.fin dblMax

/-- Translation of `ValueConstraint::CalcWeight(param, stats)`: the
unconstrained weight, projected onto the bounds by
`if (w < lower_bound) return lower_bound; if (w > upper_bound) return upper_bound;`. -/
def ValueConstraint.CalcWeight (vc : ValueConstraint) (p : TrainParam)
    (stats : GradStats) : ℚ :=
  let w : ℚ := XgbParam.CalcWeight p stats.sum_grad stats.sum_hess
  if w < vc.lower_bound then vc.lower_bound
  else if w > vc.upper_bound then vc.upper_bound
  else w

/-- Result of `ValueConstraint::CalcSplitGain`: either the finite gain
value or `-std::numeric_limits<double>::infinity()`. -/
inductive SplitGainVal where
  | negInf : SplitGainVal
  | val : ℚ → SplitGainVal
deriving DecidableEq

/-- Translation of `ValueConstraint::CalcSplitGain(param, constraint, left, right)`. -/
def ValueConstraint.CalcSplitGain (vc : ValueConstraint) (p : TrainParam)
    (constraint : Int) (left right : GradStats) : SplitGainVal :=
  let wleft : ℚ := vc.CalcWeight p left
  let wright : ℚ := vc.CalcWeight p right
  let gain : ℚ :=
    CalcGainGivenWeight p left.sum_grad left.sum_hess wleft +
    CalcGainGivenWeight p right.sum_grad right.sum_hess wright
  if constraint = 0 then SplitGainVal.val gain
  else if constraint > 0 then
    if wleft ≤ wright then SplitGainVal.val gain else SplitGainVal.negInf
  else
    if wleft ≥ wright then SplitGainVal.val gain else SplitGainVal.negInf

/-- Translation of `ValueConstraint::SetChild`.  The source reads the
feature direction with the checked lookup
`param.monotone_constraints.at(split_index)`, which throws when
`split_index` is out of range; that failure branch is modelled as
`none`.  Both children first receive a copy of the parent
(`*cleft = *this; *cright = *this;`); when the direction is nonzero
one bound of each child is tightened to the midpoint of the projected
child weights.  (The source asserts `CHECK(!std::isnan(mid))`; over ℚ
the midpoint is always a number.) -/
def ValueConstraint.SetChild (vc : ValueConstraint) (p : TrainParam)
    (split_index : Nat) (left right : GradStats) :
    Option (ValueConstraint × ValueConstraint) :=
  match p.monotone_constraints[split_index]? with
  | none => none
  | some c =>
    if c = 0 then some (vc, vc)
    else
      let wleft : ℚ := vc.CalcWeight p left
      let wright : ℚ := vc.CalcWeight p right
      let mid : ℚ := (wleft + wright) / 2
      if c < 0 then
        some ({ vc with lower_bound := mid }, { vc with upper_bound := mid })
      else
        some ({ vc with upper_bound := mid }, { vc with lower_bound := mid })

/-- Translation of `struct SplitEntry`: loss change, packed split index
(feature index in bits 0-30, default-left flag in bit 31), split value
and the two child statistics.  Field defaults mirror the member
initializers `loss_chg{0.0f}`, `sindex{0}`, `split_value{0.0f}` and the
default-constructed `GradStats`. -/
structure SplitEntry where
  loss_chg : ℚ := 0
  sindex : Nat := 0
  split_value : ℚ := 0
  left_sum : GradStats := {}
  right_sum : GradStats := {}
deriving DecidableEq

/-- Translation of `SplitEntry::SplitIndex() = sindex & ((1U << 31) - 1U)`. -/
def SplitEntry.SplitIndex (e : SplitEntry) : Nat := e.sindex &&& (2 ^ 31 - 1)

/-- Translation of `SplitEntry::DefaultLeft() = (sindex >> 31) != 0`. -/
def SplitEntry.DefaultLeft (e : SplitEntry) : Bool := e.sindex >>> 31 ≠ 0

/-- Translation of `SplitEntry::NeedReplace(new_loss_chg, split_index)`:
`if (this->SplitIndex() <= split_index) return new_loss_chg > this->loss_chg;
else return !(this->loss_chg > new_loss_chg);`. -/
def SplitEntry.NeedReplace (e : SplitEntry) (new_loss_chg : ℚ)
    (split_index : Nat) : Prop :=
  if e.SplitIndex ≤ split_index then new_loss_chg > e.loss_chg
  else ¬ (e.loss_chg > new_loss_chg)

instance (e : SplitEntry) (nl : ℚ) (si : Nat) : Decidable (e.NeedReplace nl si) := by
  unfold SplitEntry.NeedReplace
  split <;> infer_instance

/-- Translation of `SplitEntry::Update(const SplitEntry &e)`: when
`NeedReplace(e.loss_chg, e.SplitIndex())` holds, every field is
overwritten from `e` and `true` is returned. -/
def SplitEntry.Update (this e : SplitEntry) : SplitEntry × Bool :=
  if this.NeedReplace e.loss_chg e.SplitIndex then
    ({ this with
        loss_chg := e.loss_chg
        sindex := e.sindex
        split_value := e.split_value
        left_sum := e.left_sum
        right_sum := e.right_sum }, true)
  else (this, false)

/-- Translation of the raw-field
`SplitEntry::Update(new_loss_chg, split_index, new_split_value, default_left, left_sum, right_sum)`:
when a replacement happens, `default_left` is packed into the top bit
via `split_index |= (1U << 31)` before the index field is stored. -/
def SplitEntry.UpdateRaw (this : SplitEntry) (new_loss_chg : ℚ)
    (split_index : Nat) (new_split_value : ℚ) (default_left : Bool)
    (left_sum right_sum : GradStats) : SplitEntry × Bool :=
  if this.NeedReplace new_loss_chg split_index then
    let si : Nat := if default_left then split_index ||| (1 <<< 31) else split_index
    ({ this with
        loss_chg := new_loss_chg
        sindex := si
        split_value := new_split_value
        left_sum := left_sum
        right_sum := right_sum }, true)
  else (this, false)

/-- Translation of `SplitEntry::Reduce(dst, src) { dst.Update(src); }`,
returning the updated destination. -/
def SplitEntry.Reduce (dst src : SplitEntry) : SplitEntry := (dst.Update src).1

/-- Left-to-right fold of `Reduce` over a list of candidate records,
starting from `dst`: the sequential merge order. -/
def foldReduce (dst : SplitEntry) (l : List SplitEntry) : SplitEntry :=
  l.foldl SplitEntry.Reduce dst

/-- One round of a balanced binary reduction tree: adjacent pairs are
merged with `Reduce`. -/
def pairRound : List SplitEntry → List SplitEntry
  | a :: b :: t => SplitEntry.Reduce a b :: pairRound t
  | l => l

/-- Fueled driver for the balanced binary reduction tree. -/
def treeReduceAux : Nat → List SplitEntry → SplitEntry
  | _, [] => {}
  | _, [a] => a
  | 0, a :: _ :: _ => a
  | fuel + 1, a :: b :: t => treeReduceAux fuel (pairRound (a :: b :: t))

/-- Balanced binary reduction tree over a list of split records:
repeatedly merge adjacent pairs until one record remains. -/
def treeReduce (l : List SplitEntry) : SplitEntry := treeReduceAux l.length l

/-- Strict priority order implicit in `SplitEntry::NeedReplace`: `b`
displaces `a` exactly when `b` has strictly larger loss change, or
equal loss change and a strictly smaller (masked) feature index. -/
def keyLt (a b : SplitEntry) : Prop :=
  a.loss_chg < b.loss_chg ∨ (a.loss_chg = b.loss_chg ∧ b.SplitIndex < a.SplitIndex)

instance (a b : SplitEntry) : Decidable (keyLt a b) := by
  unfold keyLt; infer_instance

theorem lor_one_shiftLeft_31 {a : Nat} (h : a < 2 ^ 31) :
    a ||| (1 <<< 31) = a + 2 ^ 31 := by
  rw [Nat.one_shiftLeft, Nat.or_comm]
  have h2 := (Nat.mul_add_lt_is_or h 1).symm
  simpa [Nat.add_comm] using h2

theorem packed_splitIndex {idx : Nat} (h : idx < 2 ^ 31) (dl : Bool) :
    ((if dl then idx ||| (1 <<< 31) else idx) &&& (2 ^ 31 - 1)) = idx := by
  cases dl
  · show idx &&& (2 ^ 31 - 1) = idx
    rw [Nat.and_pow_two_sub_one_eq_mod]
    exact Nat.mod_eq_of_lt h
  · show (idx ||| (1 <<< 31)) &&& (2 ^ 31 - 1) = idx
    rw [lor_one_shiftLeft_31 h, Nat.and_pow_two_sub_one_eq_mod, Nat.add_mod_right]
    exact Nat.mod_eq_of_lt h

theorem packed_shiftRight {idx : Nat} (h : idx < 2 ^ 31) (dl : Bool) :
    ((if dl then idx ||| (1 <<< 31) else idx) >>> 31) = if dl then 1 else 0 := by
  cases dl
  · show idx >>> 31 = 0
    rw [Nat.shiftRight_eq_div_pow]
    exact Nat.div_eq_of_lt h
  · show (idx ||| (1 <<< 31)) >>> 31 = 1
    rw [lor_one_shiftLeft_31 h, Nat.shiftRight_eq_div_pow,
      Nat.add_div_right _ (by positivity), Nat.div_eq_of_lt h]

/-- Characterization of `NeedReplace` as the strict key order `keyLt`:
the candidate wins exactly when its loss change is strictly larger, or
equal with a strictly smaller feature index. -/
theorem needReplace_iff (e : SplitEntry) (nl : ℚ) (si : Nat) :
    e.NeedReplace nl si ↔
      (e.loss_chg < nl ∨ (e.loss_chg = nl ∧ si < e.SplitIndex)) := by
  unfold SplitEntry.NeedReplace
  by_cases hle : e.SplitIndex ≤ si
  · rw [if_pos hle]
    constructor
    · intro hgt
      exact Or.inl hgt
    · rintro (hlt | ⟨_, hsi⟩)
      · exact hlt
      · omega
  · rw [if_neg hle]
    constructor
    · intro hnot
      rcases lt_or_eq_of_le (not_lt.mp hnot) with h1 | h2
      · exact Or.inl h1
      · exact Or.inr ⟨h2, by omega⟩
    · rintro (hlt | ⟨heq, _⟩)
      · exact not_lt.mpr (le_of_lt hlt)
      · exact not_lt.mpr (le_of_eq heq)

/-- C8 counterexample: the default-constructed constraint does not hold
infinite bounds; the constructor expressions denote the finite doubles
-DBL_MAX and +DBL_MAX, not the infinities. -/
theorem claim8_counterexample :
    ¬ (initLowerBound = DblVal.negInf ∧ initUpperBound = DblVal.posInf) := by
  decide

/-- C8 (amended): a default-constructed monotonic value constraint has
lower bound equal to the negated largest finite double, -DBL_MAX, and
upper bound equal to the largest finite double, +DBL_MAX (both finite,
not the infinities). -/
theorem claim8_amended :
    initLowerBound = DblVal.fin (-dblMax) ∧
    initUpperBound = DblVal.fin dblMax ∧
    ValueConstraintInit = ValueConstraint.mk (-dblMax) dblMax :=
  ⟨rfl, rfl, rfl⟩

/-- C7 counterexample: with min_child_weight = 0, reg_lambda = 0 and
sum_hess = 0, the CalcGain gate passes (reg_lambda being nonnegative)
yet the divisor sum_hess + reg_lambda is not strictly positive. -/
theorem claim7_counterexample :
    0 ≤ (TrainParam.mk 0 0 0 0 []).reg_lambda ∧
    CalcGainGate (TrainParam.mk 0 0 0 0 []) 0 ∧
    ¬ (0 < (0 : ℚ) + (TrainParam.mk 0 0 0 0 []).reg_lambda) := by
  refine ⟨le_refl 0, ?_, by norm_num⟩
  unfold CalcGainGate
  norm_num

/-- C7 (amended): with reg_lambda nonnegative, the divisor
sum_hess + reg_lambda is strictly positive whenever CalcWeight's gate
passes; for CalcGain the gate alone does not force positivity and the
divisor is strictly positive when additionally sum_hess > 0.  When a
gate fails the corresponding function returns 0 without dividing. -/
theorem claim7_amended (p : TrainParam) (g h : ℚ) (hl : 0 ≤ p.reg_lambda) :
    (CalcWeightGate p h → 0 < h + p.reg_lambda) ∧
    (CalcGainGate p h → 0 < h → 0 < h + p.reg_lambda) ∧
    (¬ CalcWeightGate p h → CalcWeight p g h = 0) ∧
    (¬ CalcGainGate p h → CalcGain p g h = 0) := by
  refine ⟨?_, ?_, ?_, ?_⟩
  · intro hgate
    unfold CalcWeightGate at hgate
    push_neg at hgate
    linarith [hgate.2]
  · intro _ hpos
    linarith
  · intro hgate
    unfold CalcWeightGate at hgate
    rw [not_not] at hgate
    unfold CalcWeight
    rw [if_pos hgate]
  · intro hgate
    unfold CalcGainGate at hgate
    rw [not_not] at hgate
    unfold CalcGain
    rw [if_pos hgate]

theorem claim7_amended_witness :
    (0 : ℚ) ≤ (TrainParam.mk 1 1 0 0 []).reg_lambda ∧
    (CalcWeightGate (TrainParam.mk 1 1 0 0 []) 2 → (0 : ℚ) < 2 + 1) := by
  refine ⟨by norm_num, ?_⟩
  have h := (claim7_amended (TrainParam.mk 1 1 0 0 []) 0 2 (by norm_num)).1
  intro hg
  simpa using h hg

/-- C9: a raw-field Update that performs a replacement stores the
default-left flag in bit 31 and the feature index in bits 0-30 of the
packed sindex field, and the accessors recover exactly the stored pair. -/
theorem claim9_update_packs (e : SplitEntry) (g : ℚ) (idx : Nat) (sv : ℚ)
    (dl : Bool) (ls rs : GradStats) (hidx : idx < 2 ^ 31)
    (hrep : (e.UpdateRaw g idx sv dl ls rs).2 = true) :
    (e.UpdateRaw g idx sv dl ls rs).1.SplitIndex = idx ∧
    (e.UpdateRaw g idx sv dl ls rs).1.DefaultLeft = dl ∧
    (e.UpdateRaw g idx sv dl ls rs).1.sindex = idx + (if dl then 2 ^ 31 else 0) := by
  unfold SplitEntry.UpdateRaw at *
  by_cases hnr : e.NeedReplace g idx
  · rw [if_pos hnr] at *
    refine ⟨?_, ?_, ?_⟩
    · exact packed_splitIndex hidx dl
    · show decide (_ ≠ 0) = dl
      rw [show ({ e with
          loss_chg := g
          sindex := if dl then idx ||| (1 <<< 31) else idx
          split_value := sv
          left_sum := ls
          right_sum := rs } : SplitEntry).sindex
            = if dl then idx ||| (1 <<< 31) else idx from rfl,
        packed_shiftRight hidx dl]
      cases dl <;> simp
    · show (if dl then idx ||| (1 <<< 31) else idx) = idx + if dl then 2 ^ 31 else 0
      cases dl
      · simp
      · simpa using lor_one_shiftLeft_31 hidx
  · rw [if_neg hnr] at hrep
    exact absurd hrep (by simp)

theorem claim9_update_packs_witness :
    (5 : Nat) < 2 ^ 31 ∧
    ((({} : SplitEntry).UpdateRaw 1 5 0 true {} {}).1.SplitIndex = 5 ∧
     (({} : SplitEntry).UpdateRaw 1 5 0 true {} {}).1.DefaultLeft = true ∧
     (({} : SplitEntry).UpdateRaw 1 5 0 true {} {}).1.sindex
        = 5 + (if true then 2 ^ 31 else 0)) :=
  ⟨by norm_num, claim9_update_packs {} 1 5 0 true {} {} (by norm_num) (by decide)⟩

/-- C10: when the split index is out of range for the monotone
constraint vector, the checked lookup fails and SetChild reaches its
failure branch (modelled as none), so the stated behaviour of SetChild
holds only under the precondition split_index < monotone_constraints.size(). -/
theorem claim10_setChild_out_of_range (vc : ValueConstraint) (p : TrainParam)
    (idx : Nat) (l r : GradStats)
    (h : p.monotone_constraints.length ≤ idx) :
    vc.SetChild p idx l r = none := by
  unfold ValueConstraint.SetChild
  rw [List.getElem?_eq_none h]

theorem claim10_setChild_out_of_range_witness :
    (TrainParam.mk 1 1 0 0 [1]).monotone_constraints.length ≤ 3 ∧
    ValueConstraintInit.SetChild (TrainParam.mk 1 1 0 0 [1]) 3 {} {} = none :=
  ⟨by norm_num,
   claim10_setChild_out_of_range ValueConstraintInit (TrainParam.mk 1 1 0 0 [1])
     3 {} {} (by norm_num)⟩

/-- Evaluation of the L1 proximal operator at alpha = 0 is the identity:
the reg_alpha == 0 fast paths in CalcWeight and CalcGain agree with the
thresholded general formula. -/
theorem thresholdL1_alpha_zero (g : ℚ) : ThresholdL1 g 0 = g := by
  unfold ThresholdL1
  by_cases h1 : g > 0
  · rw [if_pos h1]; ring
  · rw [if_neg h1]
    by_cases h2 : g < -0
    · rw [if_pos h2]; ring
    · rw [if_neg h2]
      push_neg at h1 h2
      simp only [neg_zero] at h2
      linarith [le_antisymm h1 h2]

/-- C4: CalcWeight returns 0 when the hessian sum fails the gate;
otherwise it is the negated soft-thresholded gradient divided by
sum_hess + reg_lambda, clamped into [-max_delta_step, max_delta_step]
when max_delta_step is nonzero. -/
theorem claim4_calcWeight_spec (p : TrainParam) (g h : ℚ) :
    CalcWeight p g h =
      if h < p.min_child_weight ∨ h ≤ 0 then 0
      else
        if p.max_delta_step ≠ 0 then
          max (-p.max_delta_step)
            (min p.max_delta_step
              (-(if g > p.reg_alpha then g - p.reg_alpha
                 else if g < -p.reg_alpha then g + p.reg_alpha
                 else 0) / (h + p.reg_lambda)))
        else
          -(if g > p.reg_alpha then g - p.reg_alpha
            else if g < -p.reg_alpha then g + p.reg_alpha
            else 0) / (h + p.reg_lambda) := by
  by_cases hgate : h < p.min_child_weight ∨ h ≤ 0
  · simp only [CalcWeight, if_pos hgate]
  · simp only [CalcWeight, if_neg hgate]
    have hst : (if p.reg_alpha = 0 then -g / (h + p.reg_lambda)
        else -(ThresholdL1 g p.reg_alpha) / (h + p.reg_lambda)) =
        -(if g > p.reg_alpha then g - p.reg_alpha
          else if g < -p.reg_alpha then g + p.reg_alpha
          else 0) / (h + p.reg_lambda) := by
      by_cases ha : p.reg_alpha = 0
      · rw [if_pos ha]
        have hth := thresholdL1_alpha_zero g
        unfold ThresholdL1 at hth
        rw [ha, hth]
      · rw [if_neg ha]
        unfold ThresholdL1
        rfl
    rw [hst]
    set dw : ℚ := -(if g > p.reg_alpha then g - p.reg_alpha
      else if g < -p.reg_alpha then g + p.reg_alpha
      else 0) / (h + p.reg_lambda) with hdw
    by_cases hmd : p.max_delta_step ≠ 0
    · rw [if_pos hmd, if_pos hmd]
      by_cases h1 : dw > p.max_delta_step
      · rw [if_pos h1, min_eq_left (le_of_lt h1)]
        by_cases h2 : p.max_delta_step < -p.max_delta_step
        · rw [if_pos h2, max_eq_left (le_of_lt h2)]
        · rw [if_neg h2, max_eq_right (not_lt.mp h2)]
      · rw [if_neg h1]
        push_neg at h1
        rw [min_eq_right h1]
        by_cases h2 : dw < -p.max_delta_step
        · rw [if_pos h2, max_eq_left (le_of_lt h2)]
        · rw [if_neg h2, max_eq_right (not_lt.mp h2)]
    · rw [if_neg hmd, if_neg hmd]

/-- C3: CalcGain returns 0 below the gate; with max_delta_step = 0 it
is the squared soft-thresholded gradient over sum_hess + reg_lambda;
otherwise it is the gain at the clipped weight plus the L1 term
reg_alpha * |w| when reg_alpha is nonzero. -/
theorem claim3_calcGain_spec (p : TrainParam) (g h : ℚ)
    (_hl : 0 ≤ p.reg_lambda) (_ha : 0 ≤ p.reg_alpha)
    (_hm : 0 ≤ p.min_child_weight) :
    (h < p.min_child_weight → CalcGain p g h = 0) ∧
    (¬ h < p.min_child_weight →
      (p.max_delta_step = 0 →
        CalcGain p g h = Sqr (ThresholdL1 g p.reg_alpha) / (h + p.reg_lambda)) ∧
      (p.max_delta_step ≠ 0 →
        CalcGain p g h =
          CalcGainGivenWeight p g h (CalcWeight p g h) +
            (if p.reg_alpha ≠ 0 then p.reg_alpha * |CalcWeight p g h| else 0))) := by
  constructor
  · intro hlt
    unfold CalcGain
    rw [if_pos hlt]
  · intro hge
    constructor
    · intro hmd
      unfold CalcGain
      rw [if_neg hge, if_pos hmd]
      by_cases hza : p.reg_alpha = 0
      · rw [if_pos hza, hza, thresholdL1_alpha_zero]
      · rw [if_neg hza]
    · intro hmd
      unfold CalcGain
      rw [if_neg hge, if_neg hmd]
      by_cases hza : p.reg_alpha = 0
      · rw [if_pos hza, if_neg (by simpa using hza)]
        ring
      · rw [if_neg hza, if_pos hza]

theorem claim3_calcGain_spec_witness :
    (0 : ℚ) ≤ 1 ∧
    CalcGain (TrainParam.mk 1 1 0 0 []) (-10) 5 = 100 / 6 := by
  refine ⟨by norm_num, ?_⟩
  have h := (claim3_calcGain_spec (TrainParam.mk 1 1 0 0 []) (-10) 5
    (by norm_num) (by norm_num) (by norm_num)).2 (by norm_num)
  have h2 := h.1 rfl
  rw [h2]
  unfold Sqr ThresholdL1
  norm_num

/-- C5: CalcSplitGain computes the left/right weights via the
constraint-projected CalcWeight (which, for ordered bounds, is the
unconstrained weight clamped into [lower_bound, upper_bound]) and the
gain as the sum of the two CalcGainGivenWeight contributions; a zero
constraint direction returns the gain, a positive direction returns it
only when wleft <= wright (negative infinity otherwise), a negative
direction only when wleft >= wright (negative infinity otherwise). -/
theorem claim5_calcSplitGain_spec (vc : ValueConstraint) (p : TrainParam)
    (c : Int) (l r : GradStats) :
    (vc.lower_bound ≤ vc.upper_bound →
      vc.CalcWeight p l =
        max vc.lower_bound
          (min vc.upper_bound (CalcWeight p l.sum_grad l.sum_hess))) ∧
    (c = 0 → vc.CalcSplitGain p c l r =
      SplitGainVal.val
        (CalcGainGivenWeight p l.sum_grad l.sum_hess (vc.CalcWeight p l) +
         CalcGainGivenWeight p r.sum_grad r.sum_hess (vc.CalcWeight p r))) ∧
    (0 < c → vc.CalcSplitGain p c l r =
      (if vc.CalcWeight p l ≤ vc.CalcWeight p r then
        SplitGainVal.val
          (CalcGainGivenWeight p l.sum_grad l.sum_hess (vc.CalcWeight p l) +
           CalcGainGivenWeight p r.sum_grad r.sum_hess (vc.CalcWeight p r))
      else SplitGainVal.negInf)) ∧
    (c < 0 → vc.CalcSplitGain p c l r =
      (if vc.CalcWeight p l ≥ vc.CalcWeight p r then
        SplitGainVal.val
          (CalcGainGivenWeight p l.sum_grad l.sum_hess (vc.CalcWeight p l) +
           CalcGainGivenWeight p r.sum_grad r.sum_hess (vc.CalcWeight p r))
      else SplitGainVal.negInf)) := by
  refine ⟨?_, ?_, ?_, ?_⟩
  · intro hord
    simp only [ValueConstraint.CalcWeight]
    set w : ℚ := CalcWeight p l.sum_grad l.sum_hess with hw
    by_cases h1 : w < vc.lower_bound
    · rw [if_pos h1, max_eq_left]
      exact le_trans (min_le_right _ _) (le_of_lt h1)
    · rw [if_neg h1]
      push_neg at h1
      by_cases h2 : w > vc.upper_bound
      · rw [if_pos h2, min_eq_left (le_of_lt h2), max_eq_right hord]
      · rw [if_neg h2]
        push_neg at h2
        rw [min_eq_right h2, max_eq_right h1]
  · intro hc
    simp only [ValueConstraint.CalcSplitGain, if_pos hc]
  · intro hc
    simp only [ValueConstraint.CalcSplitGain,
      if_neg (by omega : ¬ c = 0), if_pos hc]
  · intro hc
    simp only [ValueConstraint.CalcSplitGain,
      if_neg (by omega : ¬ c = 0), if_neg (by omega : ¬ c > 0)]

theorem claim5_calcSplitGain_spec_witness :
    (0 : Int) < 1 ∧
    (ValueConstraint.mk (-100) 100).CalcSplitGain (TrainParam.mk 0 1 0 0 []) 1
        (GradStats.mk (-2) 1) (GradStats.mk 2 1) = SplitGainVal.negInf := by
  have h := (claim5_calcSplitGain_spec (ValueConstraint.mk (-100) 100)
    (TrainParam.mk 0 1 0 0 []) 1 (GradStats.mk (-2) 1) (GradStats.mk 2 1)).2.2.1
    (by norm_num)
  refine ⟨by norm_num, ?_⟩
  rw [h, if_neg]
  norm_num [ValueConstraint.CalcWeight, CalcWeight]

/-- C6: with an in-range feature index, SetChild copies the parent
bounds to both children; a zero monotone direction leaves them exactly
the parent's, a positive direction sets the left child's upper bound
and the right child's lower bound to the midpoint of the projected
child weights, a negative direction sets the left child's lower bound
and the right child's upper bound to that midpoint, the remaining
bounds staying equal to the parent's. -/
theorem claim6_setChild_spec (vc : ValueConstraint) (p : TrainParam)
    (idx : Nat) (l r : GradStats)
    (h : idx < p.monotone_constraints.length) :
    (p.monotone_constraints[idx] = 0 →
      vc.SetChild p idx l r = some (vc, vc)) ∧
    (0 < p.monotone_constraints[idx] →
      vc.SetChild p idx l r = some
        ({ vc with upper_bound := (vc.CalcWeight p l + vc.CalcWeight p r) / 2 },
         { vc with lower_bound := (vc.CalcWeight p l + vc.CalcWeight p r) / 2 })) ∧
    (p.monotone_constraints[idx] < 0 →
      vc.SetChild p idx l r = some
        ({ vc with lower_bound := (vc.CalcWeight p l + vc.CalcWeight p r) / 2 },
         { vc with upper_bound := (vc.CalcWeight p l + vc.CalcWeight p r) / 2 })) := by
  have hlook : p.monotone_constraints[idx]? = some (p.monotone_constraints[idx]) :=
    List.getElem?_eq_getElem h
  refine ⟨?_, ?_, ?_⟩
  · intro hc
    simp only [ValueConstraint.SetChild, hlook, if_pos hc]
  · intro hc
    simp only [ValueConstraint.SetChild, hlook,
      if_neg (by omega : ¬ p.monotone_constraints[idx] = 0),
      if_neg (by omega : ¬ p.monotone_constraints[idx] < 0)]
  · intro hc
    simp only [ValueConstraint.SetChild, hlook,
      if_neg (by omega : ¬ p.monotone_constraints[idx] = 0), if_pos hc]

theorem claim6_setChild_spec_witness :
    (0 : Nat) < (TrainParam.mk 0 0 0 0 [1]).monotone_constraints.length ∧
    (ValueConstraint.mk (-100) 100).SetChild (TrainParam.mk 0 0 0 0 [1]) 0
        (GradStats.mk (-2) 1) (GradStats.mk (-4) 1) =
      some (ValueConstraint.mk (-100) 3, ValueConstraint.mk 3 100) := by
  have h := (claim6_setChild_spec (ValueConstraint.mk (-100) 100)
    (TrainParam.mk 0 0 0 0 [1]) 0 (GradStats.mk (-2) 1) (GradStats.mk (-4) 1)
    (by norm_num)).2.1 (by decide)
  refine ⟨by norm_num, ?_⟩
  rw [h]
  norm_num [ValueConstraint.CalcWeight, CalcWeight]

/-- Reduce rewritten as a two-way selection: the source candidate is
taken exactly when NeedReplace accepts its loss change and index. -/
theorem reduce_eq (a b : SplitEntry) :
    SplitEntry.Reduce a b =
      if a.NeedReplace b.loss_chg b.SplitIndex then b else a := by
  unfold SplitEntry.Reduce SplitEntry.Update
  by_cases hc : a.NeedReplace b.loss_chg b.SplitIndex
  · rw [if_pos hc, if_pos hc]
  · rw [if_neg hc, if_neg hc]

theorem needReplace_iff_keyLt (a b : SplitEntry) :
    a.NeedReplace b.loss_chg b.SplitIndex ↔ keyLt a b := by
  rw [needReplace_iff]
  exact Iff.rfl

theorem reduce_keyLt (a b : SplitEntry) :
    SplitEntry.Reduce a b = if keyLt a b then b else a := by
  rw [reduce_eq]
  by_cases h : keyLt a b
  · rw [if_pos ((needReplace_iff_keyLt a b).mpr h), if_pos h]
  · rw [if_neg (fun hc => h ((needReplace_iff_keyLt a b).mp hc)), if_neg h]

theorem keyLt_trans {a b c : SplitEntry} (h1 : keyLt a b) (h2 : keyLt b c) :
    keyLt a c := by
  unfold keyLt at *
  rcases h1 with h1 | ⟨he1, hi1⟩ <;> rcases h2 with h2 | ⟨he2, hi2⟩
  · exact Or.inl (lt_trans h1 h2)
  · exact Or.inl (by rw [← he2]; exact h1)
  · exact Or.inl (by rw [he1]; exact h2)
  · exact Or.inr ⟨he1.trans he2, lt_trans hi2 hi1⟩

theorem not_keyLt_trans {a b c : SplitEntry} (h1 : ¬ keyLt a b)
    (h2 : ¬ keyLt b c) : ¬ keyLt a c := by
  unfold keyLt at *
  push_neg at *
  obtain ⟨hle1, him1⟩ := h1
  obtain ⟨hle2, him2⟩ := h2
  constructor
  · exact le_trans hle2 hle1
  · intro heq
    have hab : a.loss_chg ≤ b.loss_chg := by rw [heq]; exact hle2
    have hba : a.loss_chg = b.loss_chg := le_antisymm hab hle1
    have hbc : b.loss_chg = c.loss_chg := by rw [← hba, heq]
    exact le_trans (him1 hba) (him2 hbc)

/-- The pairwise best-split merge is associative: NeedReplace compares
the strict key (loss change, then smaller index), a total order on
keys, and ties keep the destination, so any two merge trees over the
same sequence agree. -/
theorem reduce_assoc (a b c : SplitEntry) :
    SplitEntry.Reduce (SplitEntry.Reduce a b) c =
      SplitEntry.Reduce a (SplitEntry.Reduce b c) := by
  by_cases hab : keyLt a b <;> by_cases hbc : keyLt b c
  · rw [reduce_keyLt a b, if_pos hab, reduce_keyLt b c, if_pos hbc,
      reduce_keyLt a c, if_pos (keyLt_trans hab hbc)]
  · rw [reduce_keyLt a b, if_pos hab, reduce_keyLt b c, if_neg hbc,
      reduce_keyLt a b, if_pos hab]
  · rw [reduce_keyLt a b, if_neg hab, reduce_keyLt b c, if_pos hbc]
  · rw [reduce_keyLt a b, if_neg hab, reduce_keyLt b c, if_neg hbc,
      reduce_keyLt a b, if_neg hab, reduce_keyLt a c,
      if_neg (not_keyLt_trans hab hbc)]

theorem foldReduce_pairRound :
    ∀ (l : List SplitEntry) (acc : SplitEntry),
      foldReduce acc (pairRound l) = foldReduce acc l
  | [], _ => rfl
  | [_], _ => rfl
  | a :: b :: t, acc => by
    show foldReduce (SplitEntry.Reduce acc (SplitEntry.Reduce a b)) (pairRound t)
        = foldReduce acc (a :: b :: t)
    rw [foldReduce_pairRound t]
    show foldReduce (SplitEntry.Reduce acc (SplitEntry.Reduce a b)) t
        = foldReduce (SplitEntry.Reduce (SplitEntry.Reduce acc a) b) t
    rw [reduce_assoc]

theorem pairRound_length_le : ∀ l : List SplitEntry,
    (pairRound l).length ≤ l.length
  | [] => Nat.le_refl _
  | [_] => Nat.le_refl _
  | _ :: _ :: t => by
    show (pairRound t).length + 1 ≤ t.length + 2
    have hp := pairRound_length_le t
    omega

theorem treeReduceAux_eq : ∀ (fuel : Nat) (a : SplitEntry) (t : List SplitEntry),
    t.length ≤ fuel → treeReduceAux fuel (a :: t) = foldReduce a t
  | fuel, _, [], _ => by cases fuel <;> rfl
  | 0, _, _ :: _, h => by simp at h
  | fuel + 1, a, b :: t2, h => by
    have hlen : (pairRound t2).length ≤ fuel := by
      have hp := pairRound_length_le t2
      simp only [List.length_cons] at h
      omega
    have hrec := treeReduceAux_eq fuel (SplitEntry.Reduce a b) (pairRound t2) hlen
    show treeReduceAux fuel (SplitEntry.Reduce a b :: pairRound t2)
        = foldReduce a (b :: t2)
    rw [hrec, foldReduce_pairRound]
    rfl

/-- C2: merging at least three best-split records via the left-to-right
fold of Reduce gives the identical final record (all fields) as merging
the same sequence via a balanced binary reduction tree. -/
theorem claim2_fold_eq_tree (r : SplitEntry) (rest : List SplitEntry)
    (_h : 3 ≤ (r :: rest).length) :
    treeReduce (r :: rest) = foldReduce r rest := by
  unfold treeReduce
  exact treeReduceAux_eq (r :: rest).length r rest (by simp)

theorem claim2_fold_eq_tree_witness :
    3 ≤ ([{ loss_chg := 1, sindex := 5 }, { loss_chg := 2, sindex := 7 },
          { loss_chg := 2, sindex := 3 }] : List SplitEntry).length ∧
    treeReduce [{ loss_chg := 1, sindex := 5 }, { loss_chg := 2, sindex := 7 },
        { loss_chg := 2, sindex := 3 }] =
      foldReduce { loss_chg := 1, sindex := 5 }
        [{ loss_chg := 2, sindex := 7 }, { loss_chg := 2, sindex := 3 }] :=
  ⟨by norm_num,
   claim2_fold_eq_tree { loss_chg := 1, sindex := 5 }
     [{ loss_chg := 2, sindex := 7 }, { loss_chg := 2, sindex := 3 }]
     (by norm_num)⟩

/-- C1 counterexample: two candidates with equal loss change 0 and
feature indices 1 and 2 presented (in either order) to a default
record, whose loss change is also 0, never replace it: the final
record keeps feature index 0, not the smaller candidate index 1. -/
theorem claim1_counterexample :
    ((((({} : SplitEntry).UpdateRaw 0 1 0 false {} {}).1.UpdateRaw
        0 2 0 false {} {}).1.SplitIndex ≠ 1) ∧
     (((({} : SplitEntry).UpdateRaw 0 2 0 false {} {}).1.UpdateRaw
        0 1 0 false {} {}).1.SplitIndex ≠ 1)) := by
  decide

/-- C1 (amended): NeedReplace returns true exactly per the stated index
and loss-change rule; and when two candidates with equal loss change
strictly greater than the record's current loss change, and different
feature indices below 2^31, are presented via the raw-field Update in
either order, the final record holds the smaller feature index. -/
theorem claim1_amended :
    (∀ (e : SplitEntry) (g : ℚ) (i : Nat),
      e.NeedReplace g i ↔
        ((e.SplitIndex ≤ i ∧ g > e.loss_chg) ∨
         (i < e.SplitIndex ∧ ¬ (e.loss_chg > g)))) ∧
    (∀ (r0 : SplitEntry) (g : ℚ) (i j : Nat) (svi svj : ℚ) (di dj : Bool)
        (li ri lj rj : GradStats),
      i < 2 ^ 31 → j < 2 ^ 31 → i ≠ j → g > r0.loss_chg →
      (((r0.UpdateRaw g i svi di li ri).1.UpdateRaw g j svj dj lj rj).1.SplitIndex
          = min i j ∧
       ((r0.UpdateRaw g j svj dj lj rj).1.UpdateRaw g i svi di li ri).1.SplitIndex
          = min i j)) := by
  constructor
  · intro e g i
    unfold SplitEntry.NeedReplace
    by_cases hle : e.SplitIndex ≤ i
    · rw [if_pos hle]
      constructor
      · intro hgt
        exact Or.inl ⟨hle, hgt⟩
      · rintro (⟨_, hgt⟩ | ⟨hlt, _⟩)
        · exact hgt
        · omega
    · rw [if_neg hle]
      constructor
      · intro hn
        exact Or.inr ⟨by omega, hn⟩
      · rintro (⟨hle2, _⟩ | ⟨_, hn⟩)
        · exact absurd hle2 hle
        · exact hn
  · intro r0 g i j svi svj di dj li ri lj rj hi hj _hij hg
    have key : ∀ (ii jj : Nat) (sv1 sv2 : ℚ) (d1 d2 : Bool)
        (a1 b1 a2 b2 : GradStats), ii < 2 ^ 31 → jj < 2 ^ 31 →
        ((r0.UpdateRaw g ii sv1 d1 a1 b1).1.UpdateRaw g jj sv2 d2 a2 b2).1.SplitIndex
          = min ii jj := by
      intro ii jj sv1 sv2 d1 d2 a1 b1 a2 b2 hii hjj
      have h1 : r0.NeedReplace g ii := by
        unfold SplitEntry.NeedReplace
        split
        · exact hg
        · exact lt_asymm hg
      set r1 : SplitEntry := (r0.UpdateRaw g ii sv1 d1 a1 b1).1 with hr1
      have hr1v : r1 = { r0 with
          loss_chg := g
          sindex := if d1 then ii ||| (1 <<< 31) else ii
          split_value := sv1
          left_sum := a1
          right_sum := b1 } := by
        rw [hr1]
        unfold SplitEntry.UpdateRaw
        rw [if_pos h1]
      have hSI : r1.SplitIndex = ii := by
        rw [hr1v]
        exact packed_splitIndex hii d1
      have hloss : r1.loss_chg = g := by rw [hr1v]
      by_cases hlt : jj < ii
      · have h2 : r1.NeedReplace g jj := by
          unfold SplitEntry.NeedReplace
          rw [hSI, hloss, if_neg (by omega : ¬ ii ≤ jj)]
          exact lt_irrefl g
        have hrep : (r1.UpdateRaw g jj sv2 d2 a2 b2).1 = { r1 with
            loss_chg := g
            sindex := if d2 then jj ||| (1 <<< 31) else jj
            split_value := sv2
            left_sum := a2
            right_sum := b2 } := by
          unfold SplitEntry.UpdateRaw
          rw [if_pos h2]
        rw [hrep]
        have hSI2 : ({ r1 with
            loss_chg := g
            sindex := if d2 then jj ||| (1 <<< 31) else jj
            split_value := sv2
            left_sum := a2
            right_sum := b2 } : SplitEntry).SplitIndex = jj :=
          packed_splitIndex hjj d2
        rw [hSI2]
        omega
      · have h2 : ¬ r1.NeedReplace g jj := by
          unfold SplitEntry.NeedReplace
          rw [hSI, hloss, if_pos (by omega : ii ≤ jj)]
          exact lt_irrefl g
        have hnorep : (r1.UpdateRaw g jj sv2 d2 a2 b2).1 = r1 := by
          unfold SplitEntry.UpdateRaw
          rw [if_neg h2]
        rw [hnorep, hSI]
        omega
    refine ⟨key i j svi svj di dj li ri lj rj hi hj, ?_⟩
    rw [key j i svj svi dj di lj rj li ri hj hi]
    exact Nat.min_comm j i

theorem claim1_amended_witness :
    (2 : Nat) < 2 ^ 31 ∧ (1 : Nat) < 2 ^ 31 ∧ (2 : Nat) ≠ 1 ∧
    (1 : ℚ) > ({} : SplitEntry).loss_chg ∧
    (((({} : SplitEntry).UpdateRaw 1 2 0 false {} {}).1.UpdateRaw
        1 1 0 false {} {}).1.SplitIndex = min 2 1 ∧
     ((({} : SplitEntry).UpdateRaw 1 1 0 false {} {}).1.UpdateRaw
        1 2 0 false {} {}).1.SplitIndex = min 2 1) :=
  ⟨by norm_num, by norm_num, by norm_num, by decide,
   claim1_amended.2 {} 1 2 1 0 0 false false {} {} {} {}
     (by norm_num) (by norm_num) (by norm_num) (by decide)⟩

end XgbParam
